import Mathlib

/-!
Verification development for the `findme` concurrent file-search tool.

The definitions below are a shallow embedding of the repository's core
matching pipeline (`Process`, `processChunkWorker`, `calculateHash` in the
flag-supporting variant of `main.go`, i.e. `src/unnamed/part_000`; the older
`main.go` variant differs only in the hash function and in lacking the
case/whole-word flags).  Go byte strings are modelled as `List Nat` with
every element a byte value; 32-bit unsigned arithmetic is modelled as `Nat`
arithmetic reduced `% 2^32` at every operation that can overflow.
-/

namespace Findme

/-- The value `2^32`, the modulus of Go uint32 arithmetic. -/
def u32 : Nat := 4294967296

/-- 32-bit truncating multiplication. -/
def mul32 (a b : Nat) : Nat := (a * b) % u32

/-- 32-bit left rotation (operands assumed `< 2^32`). -/
def rotl32 (x r : Nat) : Nat := ((x <<< r) % u32) ||| (x >>> (32 - r))

/-- One murmur3 block-mix round: mixes a 4-byte little-endian word `k`
into the running hash `h`.  Constants are murmur3_32's `c1`, `c2`,
and the round constant `0xe6546b64`. -/
def murmurMix (h k : Nat) : Nat :=
  let k1 := mul32 k 3432918353
  let k2 := rotl32 k1 15
  let k3 := mul32 k2 461845907
  let h1 := h ^^^ k3
  let h2 := rotl32 h1 13
  (mul32 h2 5 + 3864292196) % u32

/-- murmur3_32 finalization (`fmix32`) applied after xoring in the length.
Constants are `0x85ebca6b` and `0xc2b2ae35`. -/
def murmurFinalize (h len : Nat) : Nat :=
  let h1 := h ^^^ (len % u32)
  let h2 := h1 ^^^ (h1 >>> 16)
  let h3 := mul32 h2 2246822507
  let h4 := h3 ^^^ (h3 >>> 13)
  let h5 := mul32 h4 3266489909
  h5 ^^^ (h5 >>> 16)

/-- murmur3_32 main loop over the byte list: full 4-byte blocks are mixed,
then the 1-3 byte tail is combined, then the hash is finalized. -/
def murmurCore (h : Nat) (bs : List Nat) (len : Nat) : Nat :=
  match bs with
  | b0 :: b1 :: b2 :: b3 :: rest =>
      murmurCore (murmurMix h (b0 ||| (b1 <<< 8) ||| (b2 <<< 16) ||| (b3 <<< 24))) rest len
  | tail =>
      let k := match tail with
        | [t0] => t0
        | [t0, t1] => t0 ||| (t1 <<< 8)
        | [t0, t1, t2] => t0 ||| (t1 <<< 8) ||| (t2 <<< 16)
        | _ => 0
      let h1 := if tail.isEmpty then h
        else h ^^^ (mul32 (rotl32 (mul32 k 3432918353) 15) 461845907)
      murmurFinalize h1 len

/-- The function `calculateHash` of part_000: `murmur3.Sum32` of the bytes, seed 0. -/
def calculateHash (s : List Nat) : Nat := murmurCore 0 s s.length

/-- Bytes of an ASCII string literal (used only to name concrete inputs). -/
def strBytes (s : String) : List Nat := s.data.map Char.toNat

/-- The slice `l[i : i+n]` of a Go byte string (in-bounds slices only;
the worker's loop bound keeps every slice it takes in bounds). -/
def window (l : List Nat) (i n : Nat) : List Nat := (l.drop i).take n

/-- The loop body's test at index `i` (part_000 line 341-342):
`windowHash == queryHash && lineStr[i:i+len(query)] == query`. -/
def scanHit (l q : List Nat) (qh : Nat) (i : Nat) : Bool :=
  calculateHash (window l i q.length) == qh && window l i q.length == q

/-- The index sequence of the scan loop `for i := 0; i <= len(lineStr)-len(query); i++`.
Go's `int` subtraction makes the bound negative when the query is longer than
the line, so the loop body never runs in that case. -/
def scanIndices (lineLen qLen : Nat) : List Nat :=
  if qLen ≤ lineLen then List.range (lineLen - qLen + 1) else []

/-- Number of match events the scan loop emits over a given index list:
on the first hit it prints once and `break`s, so the result is 0 or 1. -/
def scanEmitLoop (l q : List Nat) (qh : Nat) : List Nat → Nat
  | [] => 0
  | i :: rest => if scanHit l q qh i then 1 else scanEmitLoop l q qh rest

/-- Match events emitted by the hash-assisted sliding-window scan
(part_000 lines 340-346) for one line. -/
def scanEmitCount (l q : List Nat) (qh : Nat) : Nat :=
  scanEmitLoop l q qh (scanIndices l.length q.length)

/-- Whether the hash-assisted scan reports a match for the line. -/
def scanMatches (l q : List Nat) (qh : Nat) : Bool :=
  (scanIndices l.length q.length).any (scanHit l q qh)

/-- Byte-exact substring: `q` occurs contiguously inside `l`. -/
def IsSub (q l : List Nat) : Prop := ∃ pre post, l = pre ++ q ++ post

/-- Go `strings.ToLower`, restricted to ASCII bytes (every concrete input in
this development is ASCII, where Go's rune-wise lowering is byte-wise). -/
def asciiToLower (s : List Nat) : List Nat :=
  s.map fun b => if 65 ≤ b && b ≤ 90 then b + 32 else b

/-- The literal (non-whole-word) branch of `processChunkWorker` on one line
(part_000 lines 328-346): under `caseInsensitive` both the line and the
query are lowered, then the sliding-window scan runs against `queryHash`. -/
def literalLineMatch (ci : Bool) (query line : List Nat) (queryHash : Nat) : Bool :=
  let lineStr := if ci then asciiToLower line else line
  let q := if ci then asciiToLower query else query
  scanMatches lineStr q queryHash

/-- The pipeline-level literal matcher: `Process` (part_000 line 258)
precomputes `queryHash := calculateHash(query)` from the original query and
hands it, with the original query, to every worker. -/
def pipelineLiteralMatch (ci : Bool) (query line : List Nat) : Bool :=
  literalLineMatch ci query line (calculateHash query)

/-- Match events a worker emits for one scanned line in literal default
mode: the worker trims and then skips zero-length lines (part_000
lines 310-313) before scanning. -/
def workerLineEmitCount (query line : List Nat) (qh : Nat) : Nat :=
  if line.isEmpty then 0 else scanEmitCount line query qh

theorem scanEmitLoop_eq_if (l q : List Nat) (qh : Nat) (idxs : List Nat) :
    scanEmitLoop l q qh idxs = if idxs.any (scanHit l q qh) then 1 else 0 := by
  induction idxs with
  | nil => rfl
  | cons i rest ih =>
      rw [scanEmitLoop, List.any_cons, ih]
      by_cases h : scanHit l q qh i = true
      · simp [h]
      · simp [h]

theorem scanEmitCount_eq_if (l q : List Nat) (qh : Nat) :
    scanEmitCount l q qh = if scanMatches l q qh then 1 else 0 := by
  rw [scanEmitCount, scanMatches, scanEmitLoop_eq_if]

theorem window_decomp (l q : List Nat) (i : Nat) (hw : window l i q.length = q) :
    l = l.take i ++ q ++ (l.drop i).drop q.length := by
  have h1 : l = l.take i ++ ((l.drop i).take q.length ++ (l.drop i).drop q.length) := by
    rw [List.take_append_drop, List.take_append_drop]
  rw [window] at hw
  rw [hw] at h1
  rw [List.append_assoc]
  exact h1

theorem window_of_parts (pre q post : List Nat) :
    window (pre ++ q ++ post) pre.length q.length = q := by
  rw [window, List.append_assoc, List.drop_left, List.take_left]

/-- Soundness and completeness of the hash-assisted scan when the supplied
hash really is the query's hash: a match is reported iff the query is a
byte-exact substring of the line. -/
theorem scanMatches_iff_isSub (l q : List Nat) :
    scanMatches l q (calculateHash q) = true ↔ IsSub q l := by
  constructor
  · intro h
    rw [scanMatches, List.any_eq_true] at h
    obtain ⟨i, _, hhit⟩ := h
    rw [scanHit, Bool.and_eq_true, beq_iff_eq, beq_iff_eq] at hhit
    exact ⟨l.take i, (l.drop i).drop q.length, window_decomp l q i hhit.2⟩
  · rintro ⟨pre, post, rfl⟩
    rw [scanMatches, List.any_eq_true]
    refine ⟨pre.length, ?_, ?_⟩
    · rw [scanIndices]
      have hq : q.length ≤ (pre ++ q ++ post).length := by
        simp only [List.length_append]
        omega
      rw [if_pos hq, List.mem_range]
      simp only [List.length_append]
      omega
    · rw [scanHit, window_of_parts]
      simp

/-- Go `bufio.Reader.ReadBytes` with the newline delimiter, on the remaining stream `s`:
data up to and including the first newline with no error, or, when the
stream ends first, all remaining data together with an end-of-file flag. -/
def readBytesNewline (s : List Nat) : List Nat × List Nat × Bool :=
  match s.findIdx? (fun b => b == 10) with
  | some k => (s.take (k + 1), s.drop (k + 1), false)
  | none => (s, [], true)

/-- The chunk-producing loop of `Process` (part_000 lines 266-290), with
`bs` the pool buffer capacity (250*1024 in the source) and `reader.Read`
modelled as returning `min bs remaining` bytes.  A fuel argument (first
`Nat`) makes the recursion structural; `chunkProducer` supplies enough.
Faithful detail: the bytes `ReadBytes` returns together with an end-of-file
error are NOT appended to the chunk (`if err != io.EOF` guard, line 281). -/
def chunkGo (bs : Nat) : Nat → List Nat → List (List Nat)
  | 0, _ => []
  | fuel + 1, s =>
      if s.isEmpty then []
      else
        let buf := s.take bs
        let rest := s.drop bs
        match readBytesNewline rest with
        | (nextUntilNewline, rest2, eof) =>
            if eof then [buf]
            else (buf ++ nextUntilNewline) :: chunkGo bs fuel rest2

/-- All chunks `Process` sends on the chunk channel for a file `s`. -/
def chunkProducer (bs : Nat) (s : List Nat) : List (List Nat) := chunkGo bs s.length s

/-- The `dropCR` helper of `bufio.ScanLines`: strips one trailing carriage return. -/
def dropCR (s : List Nat) : List Nat :=
  if s.getLast? == some 13 then s.dropLast else s

/-- The lines a worker's `bufio.Scanner` (split `ScanLines`) produces from a
byte sequence: tokens between newlines, a final unterminated token included,
each with one trailing `\r` stripped.  Fuel-indexed for structural
recursion; `splitLines` supplies enough. -/
def splitGo : Nat → List Nat → List (List Nat)
  | 0, _ => []
  | fuel + 1, s =>
      if s.isEmpty then []
      else
        match s.findIdx? (fun b => b == 10) with
        | some k => dropCR (s.take k) :: splitGo fuel (s.drop (k + 1))
        | none => [dropCR s]

/-- Line decomposition of a byte sequence (Scanner semantics). -/
def splitLines (s : List Nat) : List (List Nat) := splitGo s.length s

/-- Bytes of the two-character escape written in the Go format string
(backslash then `b`), the word-boundary marker the source splices around
the query. -/
def bsB : List Nat := [92, 98]

/-- The in-place mutation `processChunkWorker` applies to its `query`
variable while matching ONE non-empty line in literal mode (part_000 lines
328-335): lowering under `caseInsensitive`, then wrapping in `\b...\b`
under `wholeWord`.  The mutated value persists into the next line. -/
def workerQueryStep (ci ww : Bool) (q : List Nat) : List Nat :=
  let q1 := if ci then asciiToLower q else q
  if ww then bsB ++ q1 ++ bsB else q1

/-- The worker's `query` variable as used while matching the `n`-th
non-empty line (1-based): the value after `n` applications of the per-line
mutation to the query constructed before the workers started. -/
def workerQueryAt (ci ww : Bool) (q0 : List Nat) : Nat → List Nat
  | 0 => q0
  | n + 1 => workerQueryStep ci ww (workerQueryAt ci ww q0 n)

/-- Outcome of the external `regexp.Compile` call (the library is outside
this repository, so its result is a parameter of the model). -/
inductive CompileResult where
  | ok (pat : List Nat) : CompileResult
  | err (msg : List Nat) : CompileResult

/-- The `regex` variable after the CLI action's setup (part_000 lines
132-135): declared nil, then `regex, _ = regexp.Compile(query)` when
`--regex` is set — the compile error is discarded, leaving nil on failure. -/
def regexVarAfterSetup (isRegex : Bool) (res : CompileResult) : Option (List Nat) :=
  if isRegex then
    match res with
    | CompileResult.ok p => some p
    | CompileResult.err _ => none
  else none

/-- The whole action body (part_000 lines 131-144): it unconditionally
proceeds to `parallelListAndRead` (which returns nil) with whatever the
`regex` variable holds; there is no abort branch for a failed compile. -/
def searchActionResult (isRegex : Bool) (res : CompileResult) :
    Except (List Nat) (Option (List Nat)) :=
  Except.ok (regexVarAfterSetup isRegex res)

/-- A value stored in the `linesPool` `sync.Pool`, carrying its Go dynamic
type: `New` stores a `[]byte`, while workers `Put(&chunk)` store a
`*[]byte`. -/
inductive PoolVal where
  | bytes (b : List Nat) : PoolVal
  | ptrBytes (b : List Nat) : PoolVal
  deriving DecidableEq

/-- Go `linesPool.Get()`: pops an available value, or runs `New` (allocating a
fresh 250 KiB `[]byte`) when the pool is empty — it never blocks. -/
def poolGet (avail : List PoolVal) : PoolVal × List PoolVal :=
  match avail with
  | [] => (PoolVal.bytes (List.replicate (250 * 1024) 0), [])
  | v :: rest => (v, rest)

/-- The `.([]byte)` type assertion at the `Get` call site (part_000 line
267): succeeds only on a value whose dynamic type is `[]byte`; on any other
dynamic type Go panics, modelled as `none`. -/
def assertBytes : PoolVal → Option (List Nat)
  | PoolVal.bytes b => some b
  | PoolVal.ptrBytes _ => none

/-- One acquire as `Process` performs it: `linesPool.Get().([]byte)`. -/
def acquireBuf (avail : List PoolVal) : Option (List Nat) × List PoolVal :=
  let gp := poolGet avail
  (assertBytes gp.1, gp.2)

/-- A worker's release of a finished chunk (part_000 line 357):
`linesPool.Put(&chunk)` stores a `*[]byte` pointing at the chunk slice. -/
def workerRelease (avail : List PoolVal) (chunk : List Nat) : List PoolVal :=
  avail ++ [PoolVal.ptrBytes chunk]

/-- State of one file's pipeline after the producer has exhausted the file
and closed the chunk channel (part_000 line 292): the chunks still enqueued,
the number of workers that have not yet returned, the chunks already
processed by some worker, and whether `Process` has returned (past
`wg.Wait()`, line 293). -/
structure DrainState where
  queue : List (List Nat)
  active : Nat
  processed : List (List Nat)
  returned : Bool

/-- Transitions available after graceful close (no cancellation fires on
this path: `cancel()` is deferred until after `Process` returns).
`take`: a live worker receives the next enqueued chunk and processes it.
`exit`: a worker observes the channel closed AND empty (`ok == false`,
part_000 lines 302-305) and returns, releasing its `wg.Done()`.
`ret`: `wg.Wait()` returns, i.e. `Process` returns, once no worker is
active. -/
inductive DrainStep : DrainState → DrainState → Prop
  | take (c : List Nat) (q p : List (List Nat)) (a : Nat) :
      DrainStep ⟨c :: q, a + 1, p, false⟩ ⟨q, a + 1, p ++ [c], false⟩
  | exit (p : List (List Nat)) (a : Nat) :
      DrainStep ⟨[], a + 1, p, false⟩ ⟨[], a, p, false⟩
  | ret (q p : List (List Nat)) :
      DrainStep ⟨q, 0, p, false⟩ ⟨q, 0, p, true⟩

/-- Finitely many drain steps. -/
inductive DrainTrace : DrainState → DrainState → Prop
  | refl (s : DrainState) : DrainTrace s s
  | step {s t u : DrainState} : DrainStep s t → DrainTrace t u → DrainTrace s u

/-- State right after the producer closed the channel: `chunks` enqueued in
order, `n` spawned workers all still active, nothing yet processed. -/
def drainInit (chunks : List (List Nat)) (n : Nat) : DrainState :=
  ⟨chunks, n, [], false⟩

/-- Drain-phase invariant: chunks are conserved, a worker set that has
fully exited implies the queue was drained, and a returned orchestrator
implies every worker exited. -/
def DrainInv (chunks : List (List Nat)) (s : DrainState) : Prop :=
  s.processed ++ s.queue = chunks
    ∧ (s.active = 0 → s.queue = [])
    ∧ (s.returned = true → s.active = 0)

theorem drainInv_init (chunks : List (List Nat)) (n : Nat) (hn : 0 < n) :
    DrainInv chunks (drainInit chunks n) := by
  refine ⟨rfl, fun h => ?_, fun h => ?_⟩
  · exact absurd h (Nat.pos_iff_ne_zero.mp hn)
  · exact absurd h (by simp [drainInit])

theorem drainInv_step {chunks : List (List Nat)} {s t : DrainState}
    (hst : DrainStep s t) (hinv : DrainInv chunks s) : DrainInv chunks t := by
  obtain ⟨h1, h2, h3⟩ := hinv
  cases hst with
  | take c q p a =>
      refine ⟨?_, fun h => ?_, fun h => ?_⟩
      · simpa [List.append_assoc] using h1
      · exact absurd h (Nat.succ_ne_zero a)
      · exact absurd h Bool.false_ne_true
  | exit p a =>
      exact ⟨h1, fun _ => rfl, fun h => absurd h Bool.false_ne_true⟩
  | ret q p =>
      exact ⟨h1, h2, fun _ => rfl⟩

theorem drainInv_trace {chunks : List (List Nat)} {s t : DrainState}
    (htr : DrainTrace s t) (hinv : DrainInv chunks s) : DrainInv chunks t := by
  induction htr with
  | refl s => exact hinv
  | step hst _ ih => exact ih (drainInv_step hst hinv)

/-- C1: in literal default mode (case-insensitive and whole-word off), the
hash-assisted sliding-window scan reports a match iff the query is a
byte-exact substring of the line; a window passing the hash test is
reported only when its bytes equal the query's bytes; and a query longer
than the line never matches. -/
theorem hash_scan_reports_iff_substring (l q : List Nat) :
    (scanMatches l q (calculateHash q) = true ↔ IsSub q l)
      ∧ (∀ i, scanHit l q (calculateHash q) i = true → window l i q.length = q)
      ∧ (l.length < q.length → scanMatches l q (calculateHash q) = false) := by
  refine ⟨scanMatches_iff_isSub l q, fun i hi => ?_, fun hlt => ?_⟩
  · rw [scanHit, Bool.and_eq_true, beq_iff_eq, beq_iff_eq] at hi
    exact hi.2
  · rw [scanMatches, scanIndices, if_neg (by omega)]
    rfl

/-- Closed instance of C1: query "cat" inside line "concatenate". -/
theorem hash_scan_reports_iff_substring_witness :
    scanMatches (strBytes "concatenate") (strBytes "cat")
      (calculateHash (strBytes "cat")) = true :=
  (hash_scan_reports_iff_substring (strBytes "concatenate") (strBytes "cat")).1.mpr
    ⟨strBytes "con", strBytes "enate", by decide⟩

/-- C2 (failing input): the worker lowers both the line and the query, but
the sliding-window scan still compares against `queryHash`, which `Process`
computed from the ORIGINAL query.  With query "Hello" and line "hello" in
case-insensitive mode no hash ever matches, so no match is reported, even
though the lowered query is a substring of the lowered line; the claim's
own concrete examples (lowercase query "hello" vs line "Hello") do hold. -/
theorem ci_literal_match_eval :
    pipelineLiteralMatch true (strBytes "Hello") (strBytes "hello") = false
      ∧ IsSub (asciiToLower (strBytes "Hello")) (asciiToLower (strBytes "hello"))
      ∧ pipelineLiteralMatch true (strBytes "hello") (strBytes "Hello") = true
      ∧ pipelineLiteralMatch false (strBytes "hello") (strBytes "Hello") = false :=
  ⟨by decide, ⟨[], [], by decide⟩, by decide, by decide⟩

/-- C3 (failing input): with block capacity 4 and file "ab\ncdef" (final
line unterminated and crossing the block boundary), `Process` emits the
single chunk "ab\nc": `ReadBytes('\n')` hits end-of-file, and the bytes it
returned ("def") are discarded by the `if err != io.EOF` guard.  The lines
reconstructed from the emitted chunks are ["ab", "c"], not the file's
lines ["ab", "cdef"]. -/
theorem chunk_producer_drops_final_partial_line_eval :
    chunkProducer 4 (strBytes "ab\ncdef") = [strBytes "ab\nc"]
      ∧ ((chunkProducer 4 (strBytes "ab\ncdef")).map splitLines).flatten
          = [strBytes "ab", strBytes "c"]
      ∧ splitLines (strBytes "ab\ncdef") = [strBytes "ab", strBytes "cdef"] := by
  refine ⟨by decide, by decide, by decide⟩

/-- C4 (failing input): in whole-word mode the worker mutates its `query`
variable in place on every non-empty line; the query in effect when the
first line is matched is already `\bcat\b`, and when the second line is
matched it is `\b\bcat\b\b` — not the query constructed before the workers
started. -/
theorem worker_query_mutation_eval :
    workerQueryAt false true (strBytes "cat") 1 = strBytes "\\bcat\\b"
      ∧ workerQueryAt false true (strBytes "cat") 2 = strBytes "\\b\\bcat\\b\\b"
      ∧ workerQueryAt false true (strBytes "cat") 2 ≠ strBytes "cat" := by
  refine ⟨by decide, by decide, by decide⟩

/-- C5 (failing input): the word-boundary pattern is compiled inside the
per-line loop, and its source string differs from line to line (the second
line compiles `\b\bcat\b\b`), so the pattern is not constructed once per
search. -/
theorem whole_word_pattern_per_line_eval :
    workerQueryAt false true (strBytes "cat") 2
      ≠ workerQueryAt false true (strBytes "cat") 1 := by
  decide

/-- C6 (failing input): when `--regex` is set and `regexp.Compile` fails,
the action discards the error (`regex, _ = regexp.Compile(query)`) and
proceeds to the search with a nil pattern instead of aborting. -/
theorem regex_compile_failure_proceeds_eval :
    searchActionResult true (CompileResult.err (strBytes "missing closing )"))
      = Except.ok none := rfl

/-- C7: after the producer exhausts the file and closes the chunk channel,
any drain execution in which `Process` has returned has processed every
enqueued chunk and has no live worker — `wg.Wait()` only passes once every
worker, having drained the closed channel, has returned. -/
theorem process_joins_workers_after_drain
    (chunks : List (List Nat)) (n : Nat) (s : DrainState) (hn : 0 < n)
    (htr : DrainTrace (drainInit chunks n) s) (hret : s.returned = true) :
    s.processed = chunks ∧ s.active = 0 := by
  obtain ⟨h1, h2, h3⟩ := drainInv_trace htr (drainInv_init chunks n hn)
  have ha := h3 hret
  have hq := h2 ha
  rw [hq, List.append_nil] at h1
  exact ⟨h1, ha⟩

/-- Closed instance of C7: one worker drains the one-chunk queue, exits,
and only then does `Process` return. -/
theorem process_joins_workers_after_drain_witness :
    (⟨[], 0, [[97]], true⟩ : DrainState).processed = [[97]]
      ∧ (⟨[], 0, [[97]], true⟩ : DrainState).active = 0 :=
  process_joins_workers_after_drain [[97]] 1 ⟨[], 0, [[97]], true⟩ (by decide)
    (DrainTrace.step (DrainStep.take [97] [] [] 0)
      (DrainTrace.step (DrainStep.exit [[97]] 0)
        (DrainTrace.step (DrainStep.ret [] [[97]]) (DrainTrace.refl _))))
    rfl

/-- C8: in literal default mode a processed line produces at most one match
event, and exactly one iff the query is a substring of the line — the scan
loop `break`s after its first hit, so multiple occurrences still emit one
event. -/
theorem one_event_per_matching_line (l q : List Nat) :
    scanEmitCount l q (calculateHash q) ≤ 1
      ∧ (scanEmitCount l q (calculateHash q) = 1 ↔ IsSub q l) := by
  rw [scanEmitCount_eq_if]
  constructor
  · split <;> omega
  · constructor
    · intro h
      by_cases hm : scanMatches l q (calculateHash q) = true
      · exact (scanMatches_iff_isSub l q).mp hm
      · rw [if_neg hm] at h
        omega
    · intro h
      rw [if_pos ((scanMatches_iff_isSub l q).mpr h)]

/-- Closed instance of C8: "aa" occurs three times in "aaaa", yet exactly
one event is emitted. -/
theorem one_event_per_matching_line_witness :
    scanEmitCount (strBytes "aaaa") (strBytes "aa")
      (calculateHash (strBytes "aa")) = 1 :=
  (one_event_per_matching_line (strBytes "aaaa") (strBytes "aa")).2.mpr
    ⟨[], strBytes "aa", by decide⟩

/-- C9 (failing input): workers release buffers with `linesPool.Put(&chunk)`
(a `*[]byte`), but `Process` acquires with `linesPool.Get().([]byte)`; the
very next acquire after a worker's release panics on the type assertion
instead of yielding a usable buffer. -/
theorem pool_reacquire_after_worker_release_panics_eval :
    acquireBuf (workerRelease [] (strBytes "x")) = (none, []) := rfl

/-- C10: in literal default mode the empty query matches every non-empty
processed line — the zero-length window at index 0 has the empty query's
hash and bytes — so exactly one match event is emitted for such a line. -/
theorem empty_query_matches_nonempty_lines (line : List Nat) (h : line ≠ []) :
    workerLineEmitCount [] line (calculateHash []) = 1 := by
  rw [workerLineEmitCount, if_neg (by simpa using h), scanEmitCount_eq_if,
    if_pos ((scanMatches_iff_isSub line []).mpr ⟨[], line, by simp⟩)]

/-- Closed instance of C10: the empty query matches the line "a". -/
theorem empty_query_matches_nonempty_lines_witness :
    workerLineEmitCount [] [97] (calculateHash []) = 1 :=
  empty_query_matches_nonempty_lines [97] (by decide)

end Findme
